import Mathlib

/-!
# Verification of the carbon-intensity API (src/complete_carbon_api.js)

Shallow embedding of the repository's single source file.  JavaScript
numbers are modelled as rationals (`ℚ`): every claim under study concerns
order comparisons, zero-tests and integer arithmetic, none of which depend
on binary floating-point rounding.  JavaScript strings are modelled as Lean
`String`s; `toLowerCase`/`toUpperCase`/`trim` are modelled by the
corresponding Lean functions (ASCII-faithful).  Absent (`undefined`/`null`)
fields are modelled by `Option`.  `Array.prototype.sort` (required to be
stable by ECMAScript for consistent comparators) is modelled by
`List.mergeSort`, a stable sort.
-/

/-! ## Definitions: the embedded program -/

/-- One dataset record (schema from §3 of the spec and the filter code):
`country`, `country_code`/`code` strings, `carbon_intensity`/`intensity`
numbers, all optional. -/
structure Record where
  country : Option String
  country_code : Option String
  code : Option String
  carbon_intensity : Option ℚ
  intensity : Option ℚ
deriving DecidableEq, Repr

/-- The query parameters of `/api/carbon-intensity`, each a raw string or
absent (`req.query.x` is `undefined` when the parameter is missing). -/
structure Params where
  country : Option String
  country_code : Option String
  min_intensity : Option String
  max_intensity : Option String
  search : Option String
  sort : Option String
  order : Option String
  page : Option String
  limit : Option String
deriving DecidableEq, Repr

/-- The all-absent query. -/
def Params.none : Params := ⟨.none, .none, .none, .none, .none, .none, .none, .none, .none⟩

/-- JS truthiness of a possibly-absent string: `undefined` and `""` are
falsy, every other string is truthy. -/
def jsTruthy (o : Option String) : Bool :=
  match o with
  | some s => s ≠ ""
  | none => false

/-- JS truthiness of a possibly-absent number: `undefined`, `null` and `0`
are falsy. -/
def jsTruthyQ (o : Option ℚ) : Bool :=
  match o with
  | some v => v ≠ 0
  | none => false

/-- JS truthiness of a possibly-absent integer (the timestamp in
`!lastFetched`): `null` and the number `0` are both falsy. -/
def jsTruthyInt (o : Option Int) : Bool :=
  match o with
  | some n => n ≠ 0
  | none => false

/-- `a || b` on possibly-absent numbers, as used in
`item.carbon_intensity || item.intensity || 0`: a falsy left operand
(absent or zero) yields the right operand. -/
def jsOrQ (a : Option ℚ) (b : ℚ) : ℚ :=
  match a with
  | some v => if v = 0 then b else v
  | none => b

/-- `a || b` on possibly-absent strings, as used in
`item.country_code || item.code`: an absent or empty left operand yields
the right operand (which may itself be absent). -/
def jsOrS (a : Option String) (b : Option String) : Option String :=
  match a with
  | some s => if s = "" then b else some s
  | none => b

/-- `x || null` echo used to build `filters_applied`. -/
def jsNull (o : Option String) : Option String :=
  match o with
  | some s => if s = "" then none else some s
  | none => none

/-- Whitespace skipped by `parseInt`/`parseFloat`. -/
def isWs (c : Char) : Bool :=
  c = ' ' || c = '\t' || c = '\n' || c = '\r'

/-- Decimal value of a digit list (most significant first). -/
def digitsVal (ds : List Char) : Nat :=
  ds.foldl (fun n c => n * 10 + (c.toNat - 48)) 0

/-- Hexadecimal digit test. -/
def isHexDigit (c : Char) : Bool :=
  c.isDigit || ('a' ≤ c && c ≤ 'f') || ('A' ≤ c && c ≤ 'F')

/-- Hexadecimal value of a digit list. -/
def hexVal (ds : List Char) : Nat :=
  ds.foldl (fun n c =>
    n * 16 + (if c.isDigit then c.toNat - 48
              else if 'a' ≤ c then c.toNat - 87 else c.toNat - 55)) 0

/-- JS `parseInt(s)` (no radix argument): skip leading whitespace, optional
sign, then either a `0x`/`0X` hexadecimal literal or the longest decimal
digit prefix; `none` models `NaN` (no digits at all). -/
def jsParseInt (s : String) : Option Int :=
  let cs := s.toList.dropWhile isWs
  let p : Int × List Char :=
    match cs with
    | '-' :: r => (-1, r)
    | '+' :: r => (1, r)
    | _ => (1, cs)
  match p.2 with
  | '0' :: 'x' :: r =>
      let ds := r.takeWhile isHexDigit
      if ds.isEmpty then none else some (p.1 * (hexVal ds : Int))
  | '0' :: 'X' :: r =>
      let ds := r.takeWhile isHexDigit
      if ds.isEmpty then none else some (p.1 * (hexVal ds : Int))
  | _ =>
      let ds := p.2.takeWhile Char.isDigit
      if ds.isEmpty then none else some (p.1 * (digitsVal ds : Int))

/-- The exponent part of a decimal literal: `e`/`E`, optional sign, digits.
Returns `0` when no well-formed exponent follows (in which case the
remaining characters are simply not part of the parsed prefix). -/
def expPart (cs : List Char) : Int :=
  match cs with
  | 'e' :: r =>
    (match r with
     | '-' :: r2 => let ds := r2.takeWhile Char.isDigit
                    if ds.isEmpty then 0 else -(digitsVal ds : Int)
     | '+' :: r2 => let ds := r2.takeWhile Char.isDigit
                    if ds.isEmpty then 0 else (digitsVal ds : Int)
     | _ => let ds := r.takeWhile Char.isDigit
            if ds.isEmpty then 0 else (digitsVal ds : Int))
  | 'E' :: r =>
    (match r with
     | '-' :: r2 => let ds := r2.takeWhile Char.isDigit
                    if ds.isEmpty then 0 else -(digitsVal ds : Int)
     | '+' :: r2 => let ds := r2.takeWhile Char.isDigit
                    if ds.isEmpty then 0 else (digitsVal ds : Int)
     | _ => let ds := r.takeWhile Char.isDigit
            if ds.isEmpty then 0 else (digitsVal ds : Int))
  | _ => 0

/-- The exact rational `±(ip + fp / 10^|fp|) * 10^e`, assembled with integer
arithmetic only (`mkRat`), for sign `sgn`, integer digits `ip`, fraction
digits `fp` and exponent `e`. -/
def decValue (sgn : Int) (ip fp : List Char) (e : Int) : ℚ :=
  let mN : Int := sgn * (digitsVal ip * 10 ^ fp.length + digitsVal fp)
  if e ≥ 0 then mkRat (mN * 10 ^ e.toNat) (10 ^ fp.length)
  else mkRat mN (10 ^ fp.length * 10 ^ (-e).toNat)

/-- JS `parseFloat(s)`: skip leading whitespace, optional sign, longest
decimal literal prefix (`digits [. digits] [e/E [sign] digits]`); `none`
models `NaN`.  (`Infinity` literals are outside the modelled scope; the
value is the exact rational, not its double rounding.) -/
def jsParseFloat (s : String) : Option ℚ :=
  let cs := s.toList.dropWhile isWs
  let p : Int × List Char :=
    match cs with
    | '-' :: r => (-1, r)
    | '+' :: r => (1, r)
    | _ => (1, cs)
  let ip := p.2.takeWhile Char.isDigit
  let cs2 := p.2.dropWhile Char.isDigit
  let q : List Char × List Char :=
    match cs2 with
    | '.' :: r => (r.takeWhile Char.isDigit, r.dropWhile Char.isDigit)
    | _ => ([], cs2)
  if ip.isEmpty && q.1.isEmpty then none
  else some (decValue p.1 ip q.1 (expPart q.2))

/-- `CACHE_DURATION = 60 * 60 * 1000` milliseconds. -/
def CACHE_DURATION : Int := 60 * 60 * 1000

/-- The module-level cache: `let carbonData = null; let lastFetched = null`. -/
structure CacheState where
  carbonData : Option (List Record)
  lastFetched : Option Int
deriving DecidableEq, Repr

/-- The initial cache state at process startup. -/
def CacheState.init : CacheState := ⟨none, none⟩

/-- `getCarbonData`, with the ambient effects made explicit: `now` is
`Date.now()` and `fetch` is the outcome the promise `fetchCarbonData()`
would settle with if a fetch were attempted on this call.  Returns the
value (or propagated error) together with the cache state after the call.
The guard `!carbonData || !lastFetched || (now - lastFetched) > CACHE_DURATION`
is JS truthiness: an array `carbonData` is truthy whenever present, but a
`lastFetched` of `null` *or of the number `0`* is falsy and forces a
refresh attempt. -/
def getCarbonData (s : CacheState) (now : Int) (fetch : Except String (List Record)) :
    Except String (List Record) × CacheState :=
  if s.carbonData.isNone || !jsTruthyInt s.lastFetched ||
      decide (now - s.lastFetched.getD 0 > CACHE_DURATION) then
    match fetch with
    | .ok d => (.ok d, ⟨some d, some now⟩)
    | .error e =>
      match s.carbonData with
      | some d => (.ok d, s)
      | none => (.error e, s)
  else
    (.ok (s.carbonData.getD []), s)

/-- A sequence of calls to `getCarbonData`, threading the cache state;
each step supplies that call's clock reading and fetch outcome. -/
def runCalls (s : CacheState) (steps : List (Int × Except String (List Record))) : CacheState :=
  steps.foldl (fun st p => (getCarbonData st p.1 p.2).2) s

/-- JS `s.includes(t)`: `t` occurs in `s` as a contiguous substring. -/
def strIncludes (s t : String) : Bool :=
  s.toList.tails.any (fun suf => t.toList.isPrefixOf suf)

/-- The comma-separated, trimmed, lowercased `country` tokens. -/
def countryTokens (raw : String) : List String :=
  (raw.splitOn ",").map (fun c => c.trim.toLower)

/-- `countries.some(country => item.country && item.country.toLowerCase().includes(country))`. -/
def countryPred (raw : String) (item : Record) : Bool :=
  (countryTokens raw).any (fun country =>
    match item.country with
    | some c => c ≠ "" && strIncludes c.toLower country
    | none => false)

/-- The country filter stage: active when `req.query.country` is truthy. -/
def applyCountry (ps : Params) (d : List Record) : List Record :=
  if jsTruthy ps.country then d.filter (countryPred (ps.country.getD "")) else d

/-- `codes.includes(item.country_code || item.code)` with the comma-separated,
trimmed, uppercased `country_code` tokens. -/
def codePred (raw : String) (item : Record) : Bool :=
  let codes := (raw.splitOn ",").map (fun c => c.trim.toUpper)
  match jsOrS item.country_code item.code with
  | some v => codes.contains v
  | none => false

/-- The country-code filter stage. -/
def applyCode (ps : Params) (d : List Record) : List Record :=
  if jsTruthy ps.country_code then d.filter (codePred (ps.country_code.getD "")) else d

/-- `(item.carbon_intensity || item.intensity || 0)`: the record's intensity
as the filters and the JS truthiness-based field fallback resolve it. -/
def resolvedIntensity (item : Record) : ℚ :=
  jsOrQ item.carbon_intensity (jsOrQ item.intensity 0)

/-- `(item.carbon_intensity || item.intensity || 0) >= minIntensity`. -/
def minPred (minIntensity : ℚ) (item : Record) : Bool :=
  decide (resolvedIntensity item ≥ minIntensity)

/-- The min-intensity filter stage: active when the raw parameter is truthy
and parses to a number (`!isNaN(parseFloat(...))`). -/
def applyMin (ps : Params) (d : List Record) : List Record :=
  if jsTruthy ps.min_intensity then
    match jsParseFloat (ps.min_intensity.getD "") with
    | some m => d.filter (minPred m)
    | none => d
  else d

/-- `(item.carbon_intensity || item.intensity || 0) <= maxIntensity`. -/
def maxPred (maxIntensity : ℚ) (item : Record) : Bool :=
  decide (resolvedIntensity item ≤ maxIntensity)

/-- The max-intensity filter stage. -/
def applyMax (ps : Params) (d : List Record) : List Record :=
  if jsTruthy ps.max_intensity then
    match jsParseFloat (ps.max_intensity.getD "") with
    | some m => d.filter (maxPred m)
    | none => d
  else d

/-- `item.country && item.country.toLowerCase().includes(searchTerm)` where
`searchTerm` is the lowercased raw parameter. -/
def searchPred (searchTerm : String) (item : Record) : Bool :=
  match item.country with
  | some c => c ≠ "" && strIncludes c.toLower searchTerm
  | none => false

/-- The search filter stage. -/
def applySearch (ps : Params) (d : List Record) : List Record :=
  if jsTruthy ps.search then d.filter (searchPred ((ps.search.getD "").toLower)) else d

/-- The five filter stages in the order the handler applies them. -/
def filterPipeline (ps : Params) (d : List Record) : List Record :=
  applySearch ps (applyMax ps (applyMin ps (applyCode ps (applyCountry ps d))))

/-- A JS value a record field can hold: a string or a number. -/
inductive JsVal where
  | str : String → JsVal
  | num : ℚ → JsVal
deriving DecidableEq, Repr

/-- Dynamic field access `a[sortField]` over the record schema. -/
def Record.getField (item : Record) (f : String) : Option JsVal :=
  if f = "country" then item.country.map .str
  else if f = "country_code" then item.country_code.map .str
  else if f = "code" then item.code.map .str
  else if f = "carbon_intensity" then item.carbon_intensity.map .num
  else if f = "intensity" then item.intensity.map .num
  else none

/-- JS truthiness of a field value: `""` and `0` are falsy. -/
def JsVal.truthy : JsVal → Bool
  | .str s => s ≠ ""
  | .num x => x ≠ 0

/-- `a || b` over possibly-absent field values. -/
def jsOrV (a : Option JsVal) (b : JsVal) : JsVal :=
  match a with
  | some v => if v.truthy then v else b
  | none => b

/-- `a[sortField] || a.carbon_intensity || a.intensity || 0`. -/
def sortVal (f : String) (item : Record) : JsVal :=
  jsOrV (item.getField f)
    (jsOrV (item.carbon_intensity.map .num)
      (jsOrV (item.intensity.map .num) (.num 0)))

/-- Decimal rendering of an integer-valued rational; non-integer values get
a canonical `num/den` rendering (JS would print a decimal expansion — no
claim under study depends on that case). -/
def ratToString (x : ℚ) : String :=
  let sgn := if x.num < 0 then "-" else ""
  if x.den = 1 then sgn ++ Nat.repr x.num.natAbs
  else sgn ++ Nat.repr x.num.natAbs ++ "/" ++ Nat.repr x.den

/-- JS ToString of a field value (used when `localeCompare` coerces its
argument). -/
def JsVal.toStr : JsVal → String
  | .str s => s
  | .num x => ratToString x

/-- Lexicographic (code-point) strict order on character lists. -/
def charListLt : List Char → List Char → Bool
  | [], [] => false
  | [], _ :: _ => true
  | _ :: _, [] => false
  | a :: as, b :: bs => a < b || (a = b && charListLt as bs)

/-- `s.localeCompare(t)` modelled as code-point lexicographic comparison
(the default-locale behaviour on the ASCII data at hand), returning the
sign. -/
def strCmpInt (s t : String) : Int :=
  if charListLt s.toList t.toList then -1
  else if charListLt t.toList s.toList then 1 else 0

/-- Trailing part of JS ToNumber: the exponent, which must consume the
whole remainder (`none` models NaN). -/
def expDigits (r : List Char) : Option Int :=
  match r with
  | '-' :: r2 => if r2.isEmpty || !(r2.all Char.isDigit) then none else some (-(digitsVal r2 : Int))
  | '+' :: r2 => if r2.isEmpty || !(r2.all Char.isDigit) then none else some (digitsVal r2 : Int)
  | _ => if r.isEmpty || !(r.all Char.isDigit) then none else some (digitsVal r : Int)

/-- Exponent-or-end for JS ToNumber. -/
def expFull (cs : List Char) : Option Int :=
  match cs with
  | [] => some 0
  | 'e' :: r => expDigits r
  | 'E' :: r => expDigits r
  | _ => none

/-- JS ToNumber of a string (the implicit coercion in `aVal - bVal`):
trimmed empty string is `0`; otherwise the whole string must be a decimal
literal; `none` models NaN.  (Hex and `Infinity` literals are outside the
modelled scope.) -/
def jsToNumber (s : String) : Option ℚ :=
  let cs := ((s.toList.dropWhile isWs).reverse.dropWhile isWs).reverse
  if cs.isEmpty then some 0
  else
    let p : Int × List Char :=
      match cs with
      | '-' :: r => (-1, r)
      | '+' :: r => (1, r)
      | _ => (1, cs)
    let ip := p.2.takeWhile Char.isDigit
    let cs2 := p.2.dropWhile Char.isDigit
    let q : List Char × List Char :=
      match cs2 with
      | '.' :: r => (r.takeWhile Char.isDigit, r.dropWhile Char.isDigit)
      | _ => ([], cs2)
    if ip.isEmpty && q.1.isEmpty then none
    else
      match expFull q.2 with
      | some e => some (decValue p.1 ip q.1 e)
      | none => none

/-- `req.query.order === 'desc' ? -1 : 1`. -/
def sortOrder (ps : Params) : Int :=
  if ps.order = some "desc" then -1 else 1

/-- The comparator body: `aVal.localeCompare(bVal) * sortOrder` when `aVal`
is a string, `(aVal - bVal) * sortOrder` otherwise (with JS coercions); a
NaN comparator result counts as `+0`, as in the ECMAScript SortCompare
operation. -/
def jsCompareVal (f : String) (ord : Int) (a b : Record) : ℚ :=
  let aVal := sortVal f a
  let bVal := sortVal f b
  match aVal with
  | .str s => ((strCmpInt s bVal.toStr : ℚ)) * (ord : ℚ)
  | .num x =>
    match bVal with
    | .num y => (x - y) * (ord : ℚ)
    | .str t =>
      match jsToNumber t with
      | some y => (x - y) * (ord : ℚ)
      | none => 0

/-- The sort's "a may come before b" relation: comparator value `≤ 0`. -/
def jsSortLe (f : String) (ord : Int) (a b : Record) : Bool :=
  decide (jsCompareVal f ord a b ≤ 0)

/-- The sort stage: `filteredData.sort(comparator)`, modelled by the stable
`List.mergeSort` (ECMAScript requires `Array.prototype.sort` to be
stable). -/
def applySort (ps : Params) (d : List Record) : List Record :=
  if jsTruthy ps.sort then d.mergeSort (jsSortLe (ps.sort.getD "") (sortOrder ps)) else d

/-- `arr.slice(startIndex, endIndex)` with full ECMAScript index clamping
(negative indices count from the end). -/
def jsSlice (l : List Record) (start fin : Int) : List Record :=
  let len : Int := l.length
  let s := if start < 0 then max (len + start) 0 else min start len
  let e := if fin < 0 then max (len + fin) 0 else min fin len
  (l.drop s.toNat).take (e - s).toNat

/-- `parseInt(req.query.page) || 1`. -/
def effPage (ps : Params) : Int :=
  match ps.page.bind jsParseInt with
  | some n => if n = 0 then 1 else n
  | none => 1

/-- `parseInt(req.query.limit) || filteredData.length`. -/
def effLimit (ps : Params) (len : Nat) : Int :=
  match ps.limit.bind jsParseInt with
  | some n => if n = 0 then (len : Int) else n
  | none => (len : Int)

/-- A JS number that may be NaN or Infinity, as produced by
`Math.ceil(total / limit)`. -/
inductive JsNum where
  | num : Int → JsNum
  | nan : JsNum
  | inf : JsNum
deriving DecidableEq, Repr

/-- `Math.ceil(total / limit)`: NaN on `0/0`, Infinity on `total/0` with
`total > 0`, otherwise the exact ceiling. -/
def jsCeilDiv (total : Nat) (limit : Int) : JsNum :=
  if limit = 0 then (if total = 0 then .nan else .inf)
  else if limit > 0 then .num (((total : Int) + limit - 1) / limit)
  else .num (-((total / limit.natAbs : Nat) : Int))

/-- The `filters_applied` echo object. -/
structure FiltersApplied where
  country : Option String
  country_code : Option String
  min_intensity : Option String
  max_intensity : Option String
  search : Option String
  sort : Option String
  order : String
deriving DecidableEq, Repr

/-- The success response envelope of `/api/carbon-intensity`. -/
structure Envelope where
  success : Bool
  total : Nat
  page : Int
  limit : Int
  pages : JsNum
  filters_applied : FiltersApplied
  data : List Record
deriving DecidableEq, Repr

/-- The whole `/api/carbon-intensity` query processor: filters, sort,
pagination, envelope — a pure function of the dataset and the raw query
parameters, exactly mirroring the handler's sequence of operations. -/
def process (ps : Params) (data : List Record) : Envelope :=
  let filteredData := applySort ps (filterPipeline ps data)
  let page := effPage ps
  let limit := effLimit ps filteredData.length
  let startIndex := (page - 1) * limit
  let endIndex := startIndex + limit
  let paginatedData := jsSlice filteredData startIndex endIndex
  { success := true
    total := filteredData.length
    page := page
    limit := limit
    pages := jsCeilDiv filteredData.length limit
    filters_applied :=
      { country := jsNull ps.country
        country_code := jsNull ps.country_code
        min_intensity := jsNull ps.min_intensity
        max_intensity := jsNull ps.max_intensity
        search := jsNull ps.search
        sort := jsNull ps.sort
        order := (jsNull ps.order).getD "asc" }
    data := paginatedData }

/-- A fetch outcome that is an error (decidable form). -/
def fetchFailed (x : Except String (List Record)) : Bool :=
  match x with
  | .ok _ => false
  | .error _ => true

/-- Whether the min-intensity filter is active: truthy raw parameter that
parses to a number. -/
def minActive (ps : Params) : Bool :=
  jsTruthy ps.min_intensity && (jsParseFloat (ps.min_intensity.getD "")).isSome

/-- The parsed min-intensity bound (0 when inactive; unused then). -/
def minValue (ps : Params) : ℚ :=
  (jsParseFloat (ps.min_intensity.getD "")).getD 0

/-- Whether the max-intensity filter is active. -/
def maxActive (ps : Params) : Bool :=
  jsTruthy ps.max_intensity && (jsParseFloat (ps.max_intensity.getD "")).isSome

/-- The parsed max-intensity bound. -/
def maxValue (ps : Params) : ℚ :=
  (jsParseFloat (ps.max_intensity.getD "")).getD 0

/-- The effective per-record predicate of each of the five filter stages
(constantly true when the stage is inactive), in pipeline order. -/
def effPreds (ps : Params) : List (Record → Bool) :=
  [fun r => !jsTruthy ps.country || countryPred (ps.country.getD "") r,
   fun r => !jsTruthy ps.country_code || codePred (ps.country_code.getD "") r,
   fun r => !minActive ps || minPred (minValue ps) r,
   fun r => !maxActive ps || maxPred (maxValue ps) r,
   fun r => !jsTruthy ps.search || searchPred ((ps.search.getD "").toLower) r]

/-- A concrete query activating all five filters. -/
def psAllFilters : Params :=
  ⟨some "a", some "B", some "10", some "400", some "c", .none, .none, .none, .none⟩

/-- A concrete one-record dataset. -/
def dataOne : List Record := [⟨some "canada", some "B", .none, some 100, .none⟩]

/-- The resolution rule as the claim words it: a present `carbon_intensity`
field is used even when another field is also present; else a present
`intensity`; else `0` when both are absent.  (Stated from the claim for
comparison; the code's rule is `resolvedIntensity`.) -/
def claimResolvedIntensity (item : Record) : ℚ :=
  match item.carbon_intensity with
  | some v => v
  | none =>
    match item.intensity with
    | some w => w
    | none => 0

/-- A record with a present-but-zero `carbon_intensity` and a nonzero
`intensity`. -/
def zeroCarbonRecord : Record := ⟨some "Utopia", .none, .none, some 0, some 250⟩

/-- A query asking for `min_intensity=100` only. -/
def psMin100 : Params := ⟨.none, .none, some "100", .none, .none, .none, .none, .none, .none⟩

/-- C2 as amended: resolution is by JS truthiness — `carbon_intensity` when
present and nonzero, else `intensity` when present and nonzero, else `0` —
and a record passes the two active intensity filters iff its resolved value
lies within the parsed bounds. -/
def amendedResolvedIntensity (item : Record) : ℚ :=
  match item.carbon_intensity with
  | some v =>
    if v ≠ 0 then v else
      match item.intensity with
      | some w => if w ≠ 0 then w else 0
      | none => 0
  | none =>
    match item.intensity with
    | some w => if w ≠ 0 then w else 0
    | none => 0

/-- A concrete three-record dataset. -/
def data3 : List Record :=
  [⟨some "Germany", .none, .none, some 300, .none⟩,
   ⟨some "France", .none, .none, some 60, .none⟩,
   ⟨some "Germany", .none, .none, some 280, .none⟩]

/-- The claim's echo discipline for one `filters_applied` field: an absent
raw parameter is echoed as null, a present non-empty one verbatim. -/
def echoes (raw echoed : Option String) : Prop :=
  (raw = Option.none → echoed = Option.none)
  ∧ ∀ s, raw = some s → s ≠ "" → echoed = some s

/-- The numeric sort key of a record (meaningful when the resolved sort
value is a number). -/
def numKey (f : String) (r : Record) : ℚ :=
  match sortVal f r with
  | .num x => x
  | .str _ => 0

/-- The textual sort key of a record (meaningful when the resolved sort
value is a string). -/
def strKey (f : String) (r : Record) : String :=
  match sortVal f r with
  | .str s => s
  | .num _ => ""

/-- The resolved sort value is a number. -/
def JsVal.isNum : JsVal → Bool
  | .num _ => true
  | .str _ => false

/-- The resolved sort value is a string. -/
def JsVal.isStr : JsVal → Bool
  | .str _ => true
  | .num _ => false

/-- The key-based order the comparator induces on numerically-resolved
records. -/
def leNum (f : String) (ord : Int) (a b : Record) : Bool :=
  if ord = -1 then decide (numKey f b ≤ numKey f a) else decide (numKey f a ≤ numKey f b)

/-- The key-based order the comparator induces on textually-resolved
records. -/
def leStr (f : String) (ord : Int) (a b : Record) : Bool :=
  if ord = -1 then !charListLt (strKey f a).toList (strKey f b).toList
  else !charListLt (strKey f b).toList (strKey f a).toList

/-- A three-record dataset with a tie on `carbon_intensity`. -/
def dataTie : List Record :=
  [⟨some "Germany", .none, .none, some 300, .none⟩,
   ⟨some "France", .none, .none, some 300, .none⟩,
   ⟨some "Poland", .none, .none, some 100, .none⟩]

/-- The query `sort=carbon_intensity&order=desc`. -/
def psSortDesc : Params :=
  ⟨.none, .none, .none, .none, .none, some "carbon_intensity", some "desc", .none, .none⟩

/-- A fully kernel-evaluable form of `jsSortLe` (for `ord = ±1`), used to
run the modelled sort on concrete data. -/
def jsSortLeD (f : String) (ord : Int) (a b : Record) : Bool :=
  match sortVal f a with
  | .str s =>
    if ord = -1 then !charListLt s.toList ((sortVal f b).toStr).toList
    else !charListLt ((sortVal f b).toStr).toList s.toList
  | .num x =>
    match sortVal f b with
    | .num y => if ord = -1 then decide (y ≤ x) else decide (x ≤ y)
    | .str t =>
      match jsToNumber t with
      | some y => if ord = -1 then decide (y ≤ x) else decide (x ≤ y)
      | none => true

/-- The query `sort=country` (ascending). -/
def psSortCountry : Params :=
  ⟨.none, .none, .none, .none, .none, some "country", .none, .none, .none⟩

/-- A record with no `country` and `carbon_intensity: 1`. -/
def cexX : Record := ⟨.none, .none, .none, some 1, .none⟩

/-- A record with no `country` and `carbon_intensity: 7`. -/
def cexW : Record := ⟨.none, .none, .none, some 7, .none⟩

/-- A record whose `country` is the non-numeric string `"!"`. -/
def cexY : Record := ⟨some "!", .none, .none, .none, .none⟩

/-- A record whose `country` is the numeric-looking string `"5"`. -/
def cexA : Record := ⟨some "5", .none, .none, .none, .none⟩

/-- A record with no `country` and `carbon_intensity: 5`: under
`sort=country` its comparator value against `cexA` ties in both
directions (`"5"` vs `5`). -/
def cexB : Record := ⟨.none, .none, .none, some 5, .none⟩

/-- A record with no `country` and `carbon_intensity: 9`. -/
def cexR : Record := ⟨.none, .none, .none, some 9, .none⟩

/-- The eight-record dataset on which the tie is reordered. -/
def cexList : List Record := [cexX, cexW, cexY, cexA, cexB, cexR, cexR, cexR]

/-! ## Theorems -/

example : (getCarbonData CacheState.init 5 (.ok [])).2 = ⟨some [], some 5⟩ := by rfl

example : (getCarbonData CacheState.init 5 (.error "down")).1 = .error "down" := by rfl

/-- Helper: a call whose fetch outcome is an error leaves the cache state
untouched. -/
lemma getCarbonData_error_state (s : CacheState) (now : Int) (e : String) :
    (getCarbonData s now (.error e)).2 = s := by
  unfold getCarbonData
  split
  · cases h : s.carbonData <;> simp
  · rfl

/-- Helper: from an empty cache, a trace of failing fetches keeps the cache
empty. -/
lemma runCalls_none (steps : List (Int × Except String (List Record))) :
    ∀ s : CacheState, (∀ p ∈ steps, fetchFailed p.2) →
      runCalls s steps = s := by
  induction steps with
  | nil => intro s _; rfl
  | cons p rest ih =>
    intro s h
    have hp : fetchFailed p.2 := h p (List.mem_cons_self p rest)
    obtain ⟨e, he⟩ : ∃ e, p.2 = .error e := by
      cases hpe : p.2 with
      | ok d => rw [hpe] at hp; simp [fetchFailed] at hp
      | error e => exact ⟨e, rfl⟩
    have : runCalls s (p :: rest) = runCalls (getCarbonData s p.1 p.2).2 rest := rfl
    rw [this, he, getCarbonData_error_state]
    exact ih s (fun q hq => h q (List.mem_cons_of_mem p hq))

/-- C1: if a dataset is cached and the remote fetch fails, `getCarbonData`
returns the cached dataset with no error and leaves the whole cache state
(dataset and timestamp) unmodified — whether or not the refresh was due. -/
theorem getCarbonData_stale_fallback (s : CacheState) (d : List Record) (now : Int) (e : String)
    (h : s.carbonData = some d) :
    getCarbonData s now (.error e) = (.ok d, s) := by
  unfold getCarbonData
  split
  · simp [h]
  · simp [h]

/-- Witness for C1 at a concrete cache state and failing fetch. -/
theorem getCarbonData_stale_fallback_witness :
    getCarbonData ⟨some [], some 0⟩ 5000000 (.error "socket hang up")
      = (.ok [], ⟨some [], some 0⟩) :=
  getCarbonData_stale_fallback ⟨some [], some 0⟩ [] 5000000 "socket hang up" rfl

/-- C6: `getCarbonData` propagates a given error exactly when the fetch
failed with it and nothing was ever cached; in particular this is the only
way the accessor can fail. -/
theorem getCarbonData_error_iff (s : CacheState) (now : Int)
    (fetch : Except String (List Record)) (e : String) :
    (getCarbonData s now fetch).1 = .error e ↔
      s.carbonData = none ∧ fetch = .error e := by
  obtain ⟨cd, lf⟩ := s
  cases cd <;> cases fetch <;> simp [getCarbonData] <;> split <;> simp

/-- C8: the cache invariant.  (i) Along any call trace in which every fetch
outcome is an error, the cache (dataset and timestamp) stays in its initial
absent state: the dataset is absent until the first successful fetch.
(ii) Any single call maps a non-absent cached dataset to a non-absent one:
no operation clears the cache.  (iii) If a call changes the cached dataset
at all, that call's fetch succeeded and the new cache holds exactly the
fetched dataset.  These per-step facts hold at every state, hence at every
reachable one. -/
theorem cache_invariant :
    (∀ steps, (∀ p ∈ steps, fetchFailed p.2) →
        runCalls CacheState.init steps = CacheState.init)
  ∧ (∀ (s : CacheState) (now : Int) (fetch : Except String (List Record)),
        s.carbonData.isSome → ((getCarbonData s now fetch).2.carbonData).isSome)
  ∧ (∀ (s : CacheState) (now : Int) (fetch : Except String (List Record)),
        (getCarbonData s now fetch).2.carbonData ≠ s.carbonData →
          ∃ d, fetch = .ok d ∧ (getCarbonData s now fetch).2.carbonData = some d) := by
  refine ⟨fun steps h => runCalls_none steps CacheState.init h, ?_, ?_⟩
  · intro s now fetch h
    unfold getCarbonData
    split
    · cases fetch with
      | ok d => simp
      | error e => cases hc : s.carbonData <;> simp [hc] <;> simp [hc] at h
    · simpa using h
  · intro s now fetch h
    unfold getCarbonData at h ⊢
    by_cases hc : (s.carbonData.isNone || !jsTruthyInt s.lastFetched ||
        decide (now - s.lastFetched.getD 0 > CACHE_DURATION)) = true
    · rw [if_pos hc] at h ⊢
      cases fetch with
      | ok d => exact ⟨d, rfl, rfl⟩
      | error e => cases hcd : s.carbonData <;> simp [hcd] at h
    · rw [if_neg hc] at h
      simp at h

/-- Witness for C8 at a concrete failing trace and a concrete step. -/
theorem cache_invariant_witness :
    runCalls CacheState.init [(0, .error "down"), (7200000, .error "still down")]
        = CacheState.init
  ∧ ((getCarbonData ⟨some [], some 0⟩ 9000000 (.error "x")).2.carbonData).isSome := by
  refine ⟨cache_invariant.1 _ (by decide), cache_invariant.2.1 ⟨some [], some 0⟩ 9000000 (.error "x") (by decide)⟩

/-- C9 (amended): with a cached dataset, a truthy (nonzero) cached
timestamp and age within the TTL, a call to `getCarbonData` returns the
cached dataset and leaves the state unchanged, for any would-be fetch
outcome — so the call performs no observable fetch and two consecutive
such calls return identical data.  (The nonzero-timestamp hypothesis is
forced by the guard `!lastFetched`, which treats a `0` timestamp as unset
and refetches.) -/
theorem getCarbonData_fresh_idempotent (d : List Record) (t now₁ now₂ : Int)
    (fetch₁ fetch₂ : Except String (List Record)) (ht : t ≠ 0)
    (h₁ : now₁ - t ≤ CACHE_DURATION) (h₂ : now₂ - t ≤ CACHE_DURATION) :
    getCarbonData ⟨some d, some t⟩ now₁ fetch₁ = (.ok d, ⟨some d, some t⟩)
  ∧ getCarbonData ⟨some d, some t⟩ now₂ fetch₂ = (.ok d, ⟨some d, some t⟩) := by
  constructor <;>
    simp [getCarbonData, jsTruthyInt, Option.isNone, ht] <;> omega

lemma applyCountry_eq_filter (ps : Params) (d : List Record) :
    applyCountry ps d = d.filter (fun r => !jsTruthy ps.country || countryPred (ps.country.getD "") r) := by
  by_cases h : jsTruthy ps.country <;> simp [applyCountry, h]

lemma applyCode_eq_filter (ps : Params) (d : List Record) :
    applyCode ps d = d.filter (fun r => !jsTruthy ps.country_code || codePred (ps.country_code.getD "") r) := by
  by_cases h : jsTruthy ps.country_code <;> simp [applyCode, h]

lemma applyMin_eq_filter (ps : Params) (d : List Record) :
    applyMin ps d = d.filter (fun r => !minActive ps || minPred (minValue ps) r) := by
  by_cases h : jsTruthy ps.min_intensity
  · cases hp : jsParseFloat (ps.min_intensity.getD "") <;>
      simp [applyMin, h, hp, minActive, minValue]
  · simp [applyMin, h, minActive]

lemma applyMax_eq_filter (ps : Params) (d : List Record) :
    applyMax ps d = d.filter (fun r => !maxActive ps || maxPred (maxValue ps) r) := by
  by_cases h : jsTruthy ps.max_intensity
  · cases hp : jsParseFloat (ps.max_intensity.getD "") <;>
      simp [applyMax, h, hp, maxActive, maxValue]
  · simp [applyMax, h, maxActive]

lemma applySearch_eq_filter (ps : Params) (d : List Record) :
    applySearch ps d = d.filter (fun r => !jsTruthy ps.search || searchPred ((ps.search.getD "").toLower) r) := by
  by_cases h : jsTruthy ps.search <;> simp [applySearch, h]

/-- The pipeline is the left fold of the five effective filter stages. -/
lemma filterPipeline_eq_foldl (ps : Params) (d : List Record) :
    filterPipeline ps d = (effPreds ps).foldl (fun acc p => acc.filter p) d := by
  simp [filterPipeline, effPreds, applyCountry_eq_filter, applyCode_eq_filter,
    applyMin_eq_filter, applyMax_eq_filter, applySearch_eq_filter]

/-- Filtering by two predicates commutes. -/
lemma filter_swap (l : List Record) (p q : Record → Bool) :
    (l.filter p).filter q = (l.filter q).filter p := by
  simp [List.filter_filter, Bool.and_comm]

/-- C3: the filter pipeline computes exactly the intersection of the five
independently applied active filters, and any permutation of the stage
order produces the same list (hence the same set). -/
theorem filter_pipeline_intersection (ps : Params) (d : List Record) :
    (∀ r : Record, r ∈ filterPipeline ps d ↔
        r ∈ applyCountry ps d ∧ r ∈ applyCode ps d ∧ r ∈ applyMin ps d ∧
        r ∈ applyMax ps d ∧ r ∈ applySearch ps d)
  ∧ (∀ stages₂ : List (Record → Bool), (effPreds ps).Perm stages₂ →
        stages₂.foldl (fun acc p => acc.filter p) d = filterPipeline ps d) := by
  constructor
  · intro r
    simp only [filterPipeline, applyCountry_eq_filter, applyCode_eq_filter,
      applyMin_eq_filter, applyMax_eq_filter, applySearch_eq_filter,
      List.mem_filter]
    tauto
  · intro stages₂ hperm
    rw [filterPipeline_eq_foldl]
    exact (hperm.foldl_eq' (fun p _ q _ z => filter_swap z p q) d).symm

/-- Witness for C3: applying the five filter stages of a concrete query in
reversed order yields the pipeline's result on a concrete dataset. -/
theorem filter_pipeline_intersection_witness :
    ((effPreds psAllFilters).reverse).foldl (fun acc p => acc.filter p) dataOne
      = filterPipeline psAllFilters dataOne :=
  (filter_pipeline_intersection psAllFilters dataOne).2 _
    (List.reverse_perm (effPreds psAllFilters)).symm

/-- Counterexample to C2 as stated: on a record with `carbon_intensity: 0`
and `intensity: 250`, the claim's presence-based resolution yields `0`,
which is not `>= 100`, so the claim predicts the record is dropped by
`min_intensity=100`; the code's filter keeps it (JS `||` skips the falsy
`0` and resolves to `250`). -/
theorem claim_resolution_refuted :
    claimResolvedIntensity zeroCarbonRecord = 0
  ∧ ¬(claimResolvedIntensity zeroCarbonRecord ≥ 100)
  ∧ applyMin psMin100 [zeroCarbonRecord] = [zeroCarbonRecord]
  ∧ resolvedIntensity zeroCarbonRecord = 250 := by
  refine ⟨rfl, by decide, ?_, by decide⟩
  decide

lemma amendedResolvedIntensity_eq (item : Record) :
    amendedResolvedIntensity item = resolvedIntensity item := by
  unfold amendedResolvedIntensity resolvedIntensity jsOrQ
  cases item.carbon_intensity <;> cases hi : item.intensity <;> simp <;> split <;> simp_all

/-- C2 (amended): for parseable, truthy `min_intensity` and `max_intensity`
parameters, the two intensity filter stages keep exactly the records whose
truthiness-resolved intensity lies within the parsed bounds. -/
theorem intensity_filters_range (ps : Params) (d : List Record) (r : Record)
    (ms xs : String) (mv xv : ℚ)
    (hms : ps.min_intensity = some ms) (hms' : ms ≠ "")
    (hmv : jsParseFloat ms = some mv)
    (hxs : ps.max_intensity = some xs) (hxs' : xs ≠ "")
    (hxv : jsParseFloat xs = some xv) :
    r ∈ applyMax ps (applyMin ps d) ↔
      r ∈ d ∧ mv ≤ amendedResolvedIntensity r ∧ amendedResolvedIntensity r ≤ xv := by
  have hminT : jsTruthy ps.min_intensity := by simp [jsTruthy, hms, hms']
  have hmaxT : jsTruthy ps.max_intensity := by simp [jsTruthy, hxs, hxs']
  have hms'' : ps.min_intensity.getD "" = ms := by simp [hms]
  have hxs'' : ps.max_intensity.getD "" = xs := by simp [hxs]
  simp only [applyMin, applyMax, hminT, hmaxT, if_pos, hms'', hxs'', hmv, hxv,
    List.mem_filter, amendedResolvedIntensity_eq, minPred, maxPred,
    ge_iff_le, decide_eq_true_eq]
  tauto

/-- Witness for C2 (amended): `min_intensity=100&max_intensity=300` keeps a
`carbon_intensity: 300` record. -/
theorem intensity_filters_range_witness :
    ⟨some "Germany", .none, .none, some 300, .none⟩ ∈
      applyMax ⟨.none, .none, some "100", some "300", .none, .none, .none, .none, .none⟩
        (applyMin ⟨.none, .none, some "100", some "300", .none, .none, .none, .none, .none⟩
          [⟨some "Germany", .none, .none, some 300, .none⟩]) ↔
      ⟨some "Germany", .none, .none, some 300, .none⟩ ∈
          [(⟨some "Germany", .none, .none, some 300, .none⟩ : Record)]
        ∧ (100 : ℚ) ≤ amendedResolvedIntensity ⟨some "Germany", .none, .none, some 300, .none⟩
        ∧ amendedResolvedIntensity ⟨some "Germany", .none, .none, some 300, .none⟩ ≤ 300 :=
  intensity_filters_range _ _ _ "100" "300" 100 300 rfl (by decide) (by decide)
    rfl (by decide) (by decide)

/-- For nonnegative slice indices, `jsSlice` is drop-then-take with the
bounds clamped to the list. -/
lemma jsSlice_nonneg (l : List Record) (a b : Int) (ha : 0 ≤ a) (hab : a ≤ b) :
    jsSlice l a b = (l.drop a.toNat).take (b.toNat - a.toNat) := by
  simp only [jsSlice]
  rw [if_neg (by omega), if_neg (by omega)]
  rcases le_or_lt (l.length : Int) a with h | h
  · rw [min_eq_right h, min_eq_right (le_trans h hab)]
    have h0 : ((l.length : Int) - (l.length : Int)).toNat = 0 := by omega
    rw [h0, List.take_zero]
    have : l.drop a.toNat = [] := List.drop_eq_nil_of_le (by omega)
    rw [this, List.take_nil]
  · rw [min_eq_left h.le]
    rcases le_or_lt b (l.length : Int) with h2 | h2
    · rw [min_eq_left h2]
      congr 1
      omega
    · rw [min_eq_right h2.le]
      rw [List.take_of_length_le, List.take_of_length_le] <;>
        simp [List.length_drop] <;> omega

/-- Ceiling-division bounds: with `q = ⌈len/L⌉` (as `(len+L-1)/L`), for
`len ≥ 1` one has `1 ≤ q`, `len ≤ q*L` and `(q-1)*L < len`. -/
lemma ceil_mul_bounds (len L : ℕ) (hL : 1 ≤ L) (hlen : 1 ≤ len) :
    1 ≤ (len + L - 1) / L
  ∧ len ≤ ((len + L - 1) / L) * L
  ∧ ((len + L - 1) / L - 1) * L < len := by
  set q := (len + L - 1) / L with hq
  have hq1 : 1 ≤ q := by
    rw [hq, Nat.le_div_iff_mul_le hL]
    omega
  have hdm : q * L ≤ len + L - 1 := by
    rw [hq]
    exact Nat.div_mul_le_self _ _
  have hup : len ≤ q * L := by
    by_contra hcon
    push_neg at hcon
    have hs : (q + 1) * L = q * L + L := by ring
    have h5 : q + 1 ≤ (len + L - 1) / L := (Nat.le_div_iff_mul_le hL).mpr (by omega)
    omega
  have hlow : (q - 1) * L < len := by
    have : (q - 1) * L = q * L - L := by rw [Nat.sub_mul, one_mul]
    omega
  exact ⟨hq1, hup, hlow⟩

/-- `len ≤ ⌈len/L⌉ * L` also when `len = 0`. -/
lemma len_le_ceil_mul (len L : ℕ) (hL : 1 ≤ L) :
    len ≤ ((len + L - 1) / L) * L := by
  rcases Nat.eq_zero_or_pos len with h | h
  · simp [h]
  · exact (ceil_mul_bounds len L hL h).2.1

/-- C4: for page `p ≥ 1` and limit `L ≥ 1`, (i) the pagination slice
`[(p-1)·L, (p-1)·L + L)` is drop-then-take clamped to the sequence;
(ii) the last page `p = ⌈total/L⌉` holds `total mod L` records (`L` when
`L` divides `total`); (iii) any page beyond the last yields the empty
slice; and (iv) the handler's envelope always reports `success = true`
(out-of-range pages are not errors). -/
theorem pagination_slice (l : List Record) (p L : ℕ) (hp : 1 ≤ p) (hL : 1 ≤ L) :
    jsSlice l (((p : Int) - 1) * (L : Int)) (((p : Int) - 1) * (L : Int) + (L : Int))
        = (l.drop ((p - 1) * L)).take L
  ∧ (1 ≤ l.length → p = (l.length + L - 1) / L →
      (jsSlice l (((p : Int) - 1) * (L : Int)) (((p : Int) - 1) * (L : Int) + (L : Int))).length
        = if l.length % L = 0 then L else l.length % L)
  ∧ ((l.length + L - 1) / L < p →
      jsSlice l (((p : Int) - 1) * (L : Int)) (((p : Int) - 1) * (L : Int) + (L : Int)) = [])
  ∧ (∀ (ps : Params) (d : List Record), (process ps d).success = true) := by
  have hcast : ((p : Int) - 1) * (L : Int) = (((p - 1) * L : ℕ) : Int) := by
    push_cast [Nat.cast_sub hp]
    ring
  have hslice : jsSlice l (((p : Int) - 1) * (L : Int)) (((p : Int) - 1) * (L : Int) + (L : Int))
      = (l.drop ((p - 1) * L)).take L := by
    rw [hcast, jsSlice_nonneg l _ _ (by positivity) (by omega)]
    congr 1 <;> omega
  refine ⟨hslice, ?_, ?_, fun ps d => rfl⟩
  · intro hlen hpceil
    rw [hslice, List.length_take, List.length_drop]
    obtain ⟨hq1, hup, hlow⟩ := ceil_mul_bounds l.length L hL hlen
    rw [← hpceil] at hq1 hup hlow
    set t := l.length - (p - 1) * L with ht
    have hlen_eq : l.length = (p - 1) * L + t := by omega
    have hmod : l.length % L = t % L := by
      rw [hlen_eq, Nat.mul_comm (p - 1) L, Nat.mul_add_mod]
    have hsub : (p - 1) * L = p * L - L := by rw [Nat.sub_mul, one_mul]
    have hLp : L ≤ p * L := Nat.le_mul_of_pos_left L (by omega)
    have htL : t ≤ L := by omega
    by_cases hT : t = L
    · rw [hmod, hT, Nat.mod_self, if_pos rfl]
      exact min_self L
    · have htlt : t < L := lt_of_le_of_ne htL hT
      rw [hmod, Nat.mod_eq_of_lt htlt, if_neg (by omega)]
      exact min_eq_right htlt.le
  · intro hbeyond
    rw [hslice]
    have hup := len_le_ceil_mul l.length L hL
    have hA : l.length ≤ (p - 1) * L := by
      calc l.length ≤ ((l.length + L - 1) / L) * L := hup
        _ ≤ (p - 1) * L := Nat.mul_le_mul_right L (by omega)
    rw [List.drop_eq_nil_of_le hA, List.take_nil]

/-- Witness for C4: `limit=1&page=2` on a three-record sequence returns
exactly the second record. -/
theorem pagination_slice_witness :
    jsSlice data3 ((((2 : ℕ) : Int) - 1) * ((1 : ℕ) : Int))
        ((((2 : ℕ) : Int) - 1) * ((1 : ℕ) : Int) + ((1 : ℕ) : Int))
      = (data3.drop ((2 - 1) * 1)).take 1 :=
  (pagination_slice data3 2 1 (by decide) (by decide)).1

lemma echoes_jsNull (o : Option String) : echoes o (jsNull o) := by
  constructor
  · intro h
    rw [h]
    rfl
  · intro s hs hne
    rw [hs]
    simp [jsNull, hne]

/-- C5: the envelope reports `success = true`; `total` is the record count
after filters, search and sort but before pagination; an absent `limit`
defaults to that count and (with defaulted page) yields the whole result as
`data`; `pages` is `Math.ceil(total / limit)`; `data` is the pagination
slice; `filters_applied` echoes each raw parameter (or null when absent)
with `order` defaulting to `"asc"`. -/
theorem envelope_fields (ps : Params) (d : List Record) :
    (process ps d).success = true
  ∧ (process ps d).total = (applySort ps (filterPipeline ps d)).length
  ∧ (ps.limit = Option.none → (process ps d).limit = ((process ps d).total : Int))
  ∧ (ps.limit = Option.none → ps.page = Option.none →
      (process ps d).data = applySort ps (filterPipeline ps d))
  ∧ (process ps d).pages = jsCeilDiv (process ps d).total (process ps d).limit
  ∧ (process ps d).data
      = jsSlice (applySort ps (filterPipeline ps d))
          (((process ps d).page - 1) * (process ps d).limit)
          (((process ps d).page - 1) * (process ps d).limit + (process ps d).limit)
  ∧ (ps.order = Option.none → (process ps d).filters_applied.order = "asc")
  ∧ echoes ps.country (process ps d).filters_applied.country
  ∧ echoes ps.country_code (process ps d).filters_applied.country_code
  ∧ echoes ps.min_intensity (process ps d).filters_applied.min_intensity
  ∧ echoes ps.max_intensity (process ps d).filters_applied.max_intensity
  ∧ echoes ps.search (process ps d).filters_applied.search
  ∧ echoes ps.sort (process ps d).filters_applied.sort := by
  refine ⟨rfl, rfl, ?_, ?_, rfl, rfl, ?_, echoes_jsNull _, echoes_jsNull _,
    echoes_jsNull _, echoes_jsNull _, echoes_jsNull _, echoes_jsNull _⟩
  · intro hL
    simp [process, effLimit, hL]
  · intro hL hP
    have h0 : effPage ps = 1 := by simp [effPage, hP]
    have h1 : ∀ n : ℕ, effLimit ps n = (n : Int) := by
      intro n
      simp [effLimit, hL]
    simp only [process, h0, h1]
    rw [show ((1 : Int) - 1) * ((applySort ps (filterPipeline ps d)).length : Int) = 0 by ring,
      jsSlice_nonneg _ _ _ le_rfl (by positivity), zero_add]
    simp
  · intro hO
    simp [process, jsNull, hO]

/-- Witness for C5: with no `limit` parameter the reported limit equals the
reported total. -/
theorem envelope_fields_witness :
    (process Params.none data3).limit = ((process Params.none data3).total : Int) :=
  (envelope_fields Params.none data3).2.2.1 rfl

/-- C10: (i) a `limit` whose `parseInt` is 0 or NaN produces the identical
envelope to an absent `limit`; (ii) likewise for `page` (whose effective
value is then 1); (iii) with an empty filtered result and absent `limit`,
the effective limit is 0 and `pages` is NaN (`0/0`); (iv) absent `limit`
and `page` return the whole filtered result as one page. -/
theorem degenerate_page_limit (ps : Params) (d : List Record) (rawL rawP : String) :
    (ps.limit = some rawL → (jsParseInt rawL = some 0 ∨ jsParseInt rawL = Option.none) →
        process ps d = process { ps with limit := Option.none } d)
  ∧ (ps.page = some rawP → (jsParseInt rawP = some 0 ∨ jsParseInt rawP = Option.none) →
        process ps d = process { ps with page := Option.none } d ∧ effPage ps = 1)
  ∧ (ps.limit = Option.none → (applySort ps (filterPipeline ps d)).length = 0 →
        (process ps d).limit = 0 ∧ (process ps d).pages = JsNum.nan)
  ∧ (ps.limit = Option.none → ps.page = Option.none →
      (process ps d).data = applySort ps (filterPipeline ps d)) := by
  refine ⟨?_, ?_, ?_, ?_⟩
  · intro hL hpar
    have heff : ∀ n : ℕ, effLimit ps n = (n : Int) := by
      intro n
      rcases hpar with h0 | h0 <;> simp [effLimit, hL, h0]
    have heff' : ∀ n : ℕ, effLimit { ps with limit := Option.none } n = (n : Int) := by
      intro n
      simp [effLimit]
    simp only [process, heff, heff']
    rfl
  · intro hP hpar
    have heff : effPage ps = 1 := by
      rcases hpar with h0 | h0 <;> simp [effPage, hP, h0]
    have heff' : effPage { ps with page := Option.none } = 1 := by
      simp [effPage]
    refine ⟨?_, heff⟩
    simp only [process, heff, heff']
    rfl
  · intro hL hlen
    constructor
    · simp [process, effLimit, hL, hlen]
    · simp [process, effLimit, hL, hlen, jsCeilDiv]
  · intro hL hP
    have h0 : effPage ps = 1 := by simp [effPage, hP]
    have h1 : ∀ n : ℕ, effLimit ps n = (n : Int) := by
      intro n
      simp [effLimit, hL]
    simp only [process, h0, h1]
    rw [show ((1 : Int) - 1) * ((applySort ps (filterPipeline ps d)).length : Int) = 0 by ring,
      jsSlice_nonneg _ _ _ le_rfl (by positivity), zero_add]
    simp

/-- Witness for C10: `limit=0` produces the identical envelope to an absent
`limit` on a concrete dataset. -/
theorem degenerate_page_limit_witness :
    process ⟨.none, .none, .none, .none, .none, .none, .none, .none, some "0"⟩ data3
      = process ⟨.none, .none, .none, .none, .none, .none, .none, .none, .none⟩ data3 :=
  (degenerate_page_limit
      ⟨.none, .none, .none, .none, .none, .none, .none, .none, some "0"⟩ data3 "0" "").1
    rfl (Or.inl (by decide))

lemma charListLt_irrefl : ∀ l : List Char, charListLt l l = false := by
  intro l
  induction l with
  | nil => rfl
  | cons a as ih => simp [charListLt, ih]

lemma charListLt_trans : ∀ {a b c : List Char},
    charListLt a b = true → charListLt b c = true → charListLt a c = true := by
  intro a
  induction a with
  | nil =>
    intro b c hab hbc
    cases b with
    | nil => cases hab
    | cons y ys =>
      cases c with
      | nil => cases hbc
      | cons z zs => rfl
  | cons x xs ih =>
    intro b c hab hbc
    cases b with
    | nil => cases hab
    | cons y ys =>
      cases c with
      | nil => cases hbc
      | cons z zs =>
        simp only [charListLt, Bool.or_eq_true, Bool.and_eq_true, decide_eq_true_eq] at hab hbc ⊢
        rcases hab with h1 | ⟨h1, h1'⟩
        · rcases hbc with h2 | ⟨h2, h2'⟩
          · exact Or.inl (lt_trans h1 h2)
          · exact Or.inl (h2 ▸ h1)
        · rcases hbc with h2 | ⟨h2, h2'⟩
          · exact Or.inl (h1 ▸ h2)
          · exact Or.inr ⟨h1.trans h2, ih h1' h2'⟩

lemma charListLt_total3 : ∀ a b : List Char,
    charListLt a b = true ∨ a = b ∨ charListLt b a = true := by
  intro a
  induction a with
  | nil =>
    intro b
    cases b with
    | nil => exact Or.inr (Or.inl rfl)
    | cons y ys => exact Or.inl rfl
  | cons x xs ih =>
    intro b
    cases b with
    | nil => exact Or.inr (Or.inr rfl)
    | cons y ys =>
      rcases lt_trichotomy x y with h | h | h
      · exact Or.inl (by simp [charListLt, h])
      · subst h
        rcases ih ys with h2 | h2 | h2
        · exact Or.inl (by simp [charListLt, h2])
        · exact Or.inr (Or.inl (by rw [h2]))
        · exact Or.inr (Or.inr (by simp [charListLt, h2]))
      · exact Or.inr (Or.inr (by simp [charListLt, h]))

lemma charListLt_asymm {a b : List Char}
    (h1 : charListLt a b = true) (h2 : charListLt b a = true) : False := by
  have := charListLt_trans h1 h2
  rw [charListLt_irrefl] at this
  cases this

/-- `mergeSort` only inspects the relation on members: relations agreeing
on the list sort it identically. -/
lemma mergeSort_congr_mem (l : List Record) (r s : Record → Record → Bool)
    (h : ∀ a ∈ l, ∀ b ∈ l, r a b = s a b) :
    l.mergeSort r = l.mergeSort s := by
  have hm := @List.map_mergeSort Record Record r s id l (fun a ha b hb => h a ha b hb)
  simpa using hm

lemma sortOrder_cases (ps : Params) : sortOrder ps = 1 ∨ sortOrder ps = -1 := by
  unfold sortOrder
  split
  · exact Or.inr rfl
  · exact Or.inl rfl

/-- On two numerically-resolved records the comparator's order agrees with
the numeric-key order. -/
lemma jsSortLe_eq_leNum (f : String) (ord : Int) (hord : ord = 1 ∨ ord = -1)
    (a b : Record) (ha : (sortVal f a).isNum = true) (hb : (sortVal f b).isNum = true) :
    jsSortLe f ord a b = leNum f ord a b := by
  cases hva : sortVal f a with
  | str s => rw [hva] at ha; cases ha
  | num x =>
    cases hvb : sortVal f b with
    | str t => rw [hvb] at hb; cases hb
    | num y =>
      rcases hord with h | h <;> subst h <;>
        simp [jsSortLe, jsCompareVal, leNum, numKey, hva, hvb, decide_eq_decide,
          sub_nonpos, sub_nonneg]

/-- On two textually-resolved records the comparator's order agrees with
the textual-key order. -/
lemma jsSortLe_eq_leStr (f : String) (ord : Int) (hord : ord = 1 ∨ ord = -1)
    (a b : Record) (ha : (sortVal f a).isStr = true) (hb : (sortVal f b).isStr = true) :
    jsSortLe f ord a b = leStr f ord a b := by
  cases hva : sortVal f a with
  | num x => rw [hva] at ha; cases ha
  | str s =>
    cases hvb : sortVal f b with
    | num y => rw [hvb] at hb; cases hb
    | str t =>
      have hcmp : ∀ u v : String, (charListLt u.toList v.toList = true → strCmpInt u v = -1)
          ∧ (charListLt u.toList v.toList = false → charListLt v.toList u.toList = true →
              strCmpInt u v = 1)
          ∧ (charListLt u.toList v.toList = false → charListLt v.toList u.toList = false →
              strCmpInt u v = 0) := by
        intro u v
        refine ⟨fun h => ?_, fun h h' => ?_, fun h h' => ?_⟩
        · unfold strCmpInt
          rw [h]
          rfl
        · unfold strCmpInt
          rw [h, h']
          rfl
        · unfold strCmpInt
          rw [h, h']
          rfl
      rcases hord with h | h <;> subst h <;>
        simp only [jsSortLe, jsCompareVal, leStr, strKey, hva, hvb, JsVal.toStr] <;>
        rcases h1 : charListLt s.toList t.toList <;> rcases h2 : charListLt t.toList s.toList
      · rw [(hcmp s t).2.2 h1 h2]
        norm_num
      · rw [(hcmp s t).2.1 h1 h2]
        norm_num
      · rw [(hcmp s t).1 h1]
        norm_num
      · exact (charListLt_asymm h1 h2).elim
      · rw [(hcmp s t).2.2 h1 h2]
        norm_num
      · rw [(hcmp s t).2.1 h1 h2]
        norm_num
      · rw [(hcmp s t).1 h1]
        norm_num
      · exact (charListLt_asymm h1 h2).elim

lemma charListNotLt_trans {A B C : List Char}
    (h1 : charListLt B A = false) (h2 : charListLt C B = false) :
    charListLt C A = false := by
  by_contra h
  rw [Bool.not_eq_false] at h
  rcases charListLt_total3 B A with hBA | hBA | hBA
  · rw [hBA] at h1
    cases h1
  · subst hBA
    rw [h] at h2
    cases h2
  · rw [charListLt_trans h hBA] at h2
    cases h2

lemma leNum_trans (f : String) (ord : Int) :
    ∀ a b c : Record, leNum f ord a b → leNum f ord b c → leNum f ord a c := by
  intro a b c h1 h2
  by_cases h : ord = -1 <;> simp [leNum, h] at h1 h2 ⊢
  · exact le_trans h2 h1
  · exact le_trans h1 h2

lemma leNum_total (f : String) (ord : Int) :
    ∀ a b : Record, leNum f ord a b || leNum f ord b a := by
  intro a b
  by_cases h : ord = -1 <;> simp [leNum, h] <;> exact le_total _ _

lemma leStr_trans (f : String) (ord : Int) :
    ∀ a b c : Record, leStr f ord a b → leStr f ord b c → leStr f ord a c := by
  intro a b c h1 h2
  by_cases h : ord = -1 <;> simp only [leStr, h, if_pos, if_neg, if_true, if_false,
    Bool.not_eq_true', reduceIte] at h1 h2 ⊢
  · exact charListNotLt_trans h2 h1
  · exact charListNotLt_trans h1 h2

lemma charListLt_not_both {A B : List Char} :
    charListLt A B = false ∨ charListLt B A = false := by
  rcases h1 : charListLt A B
  · exact Or.inl rfl
  · rcases h2 : charListLt B A
    · exact Or.inr rfl
    · exact (charListLt_asymm h1 h2).elim

lemma leStr_total (f : String) (ord : Int) :
    ∀ a b : Record, leStr f ord a b || leStr f ord b a := by
  intro a b
  by_cases h : ord = -1 <;>
    simp only [leStr, h, reduceIte, Bool.or_eq_true, Bool.not_eq_true']
  · exact charListLt_not_both
  · exact charListLt_not_both

lemma tie_numKey (f : String) (ord : Int) (hord : ord = 1 ∨ ord = -1) (a b : Record)
    (ha : (sortVal f a).isNum = true) (hb : (sortVal f b).isNum = true)
    (htie : jsCompareVal f ord a b = 0) :
    numKey f a = numKey f b := by
  cases hva : sortVal f a with
  | str s => rw [hva] at ha; cases ha
  | num x =>
    cases hvb : sortVal f b with
    | str t => rw [hvb] at hb; cases hb
    | num y =>
      simp only [jsCompareVal, hva, hvb] at htie
      have ho : ((ord : ℚ)) ≠ 0 := by
        rcases hord with h | h <;> subst h <;> norm_num
      have := mul_eq_zero.mp htie
      rcases this with h | h
      · simp [numKey, hva, hvb, sub_eq_zero.mp h]
      · exact absurd h ho

lemma tie_strKey (f : String) (ord : Int) (hord : ord = 1 ∨ ord = -1) (a b : Record)
    (ha : (sortVal f a).isStr = true) (hb : (sortVal f b).isStr = true)
    (htie : jsCompareVal f ord a b = 0) :
    charListLt (strKey f a).toList (strKey f b).toList = false
  ∧ charListLt (strKey f b).toList (strKey f a).toList = false := by
  cases hva : sortVal f a with
  | num x => rw [hva] at ha; cases ha
  | str s =>
    cases hvb : sortVal f b with
    | num y => rw [hvb] at hb; cases hb
    | str t =>
      simp only [jsCompareVal, hva, hvb, JsVal.toStr] at htie
      have ho : ((ord : ℚ)) ≠ 0 := by
        rcases hord with h | h <;> subst h <;> norm_num
      have hz : strCmpInt s t = 0 := by
        rcases mul_eq_zero.mp htie with h | h
        · exact_mod_cast h
        · exact absurd h ho
      unfold strCmpInt at hz
      simp only [strKey, hva, hvb]
      rcases h1 : charListLt s.toList t.toList <;>
        rcases h2 : charListLt t.toList s.toList <;>
        rw [h1, h2] at hz <;> simp_all

/-- C7 (amended): when every record in the filtered sequence resolves its
sort value to the same kind (all numbers, or all strings) — so that the
comparator is a consistent comparison function as ECMAScript requires for a
deterministic sort — the stable sort preserves the pre-sort relative order
of every tied pair. -/
theorem sort_ties_stable (ps : Params) (f : String) (l : List Record) (a b : Record)
    (hs : ps.sort = some f) (hf : f ≠ "")
    (hhom : (∀ r ∈ l, (sortVal f r).isNum = true) ∨ (∀ r ∈ l, (sortVal f r).isStr = true))
    (hab : [a, b].Sublist l)
    (htie : jsCompareVal f (sortOrder ps) a b = 0) :
    [a, b].Sublist (applySort ps l) := by
  have hT : jsTruthy ps.sort = true := by simp [jsTruthy, hs, hf]
  have hget : ps.sort.getD "" = f := by rw [hs]; rfl
  rw [applySort, if_pos hT, hget]
  have ha : a ∈ l := hab.subset (by simp)
  have hb : b ∈ l := hab.subset (by simp)
  have hord := sortOrder_cases ps
  rcases hhom with hnum | hstr
  · rw [mergeSort_congr_mem l _ (leNum f (sortOrder ps))
      (fun x hx y hy => jsSortLe_eq_leNum f _ hord x y (hnum x hx) (hnum y hy))]
    have hk := tie_numKey f _ hord a b (hnum a ha) (hnum b hb) htie
    refine List.pair_sublist_mergeSort (leNum_trans f _) (leNum_total f _) ?_ hab
    rcases hord with h | h <;> simp [leNum, h, hk]
  · rw [mergeSort_congr_mem l _ (leStr f (sortOrder ps))
      (fun x hx y hy => jsSortLe_eq_leStr f _ hord x y (hstr x hx) (hstr y hy))]
    have hk := tie_strKey f _ hord a b (hstr a ha) (hstr b hb) htie
    refine List.pair_sublist_mergeSort (leStr_trans f _) (leStr_total f _) ?_ hab
    have hk1 := hk.1
    have hk2 := hk.2
    simp only [String.toList] at hk1 hk2
    rcases hord with h | h <;> simp [leStr, h, hk1, hk2]

/-- Witness for C7 (amended): under `sort=carbon_intensity&order=desc` the
tied Germany/France records keep their relative order. -/
theorem sort_ties_stable_witness :
    [⟨some "Germany", .none, .none, some 300, .none⟩,
     ⟨some "France", .none, .none, some 300, .none⟩].Sublist (applySort psSortDesc dataTie) :=
  sort_ties_stable psSortDesc "carbon_intensity" dataTie _ _ rfl (by decide)
    (Or.inl (by decide))
    (List.Sublist.cons₂ _ (List.Sublist.cons₂ _ (List.nil_sublist _)))
    (by simp [jsCompareVal, sortVal, Record.getField, jsOrV, JsVal.truthy, sortOrder, psSortDesc])

lemma jsSortLe_eq_D (f : String) (ord : Int) (hord : ord = 1 ∨ ord = -1)
    (a b : Record) : jsSortLe f ord a b = jsSortLeD f ord a b := by
  have hstr : ∀ s t : String,
      (decide ((strCmpInt s t : ℚ) * ((1 : Int) : ℚ) ≤ 0) = !charListLt t.toList s.toList)
    ∧ (decide ((strCmpInt s t : ℚ) * (((-1 : Int)) : ℚ) ≤ 0) = !charListLt s.toList t.toList) := by
    intro s t
    unfold strCmpInt
    rcases h1 : charListLt s.toList t.toList <;> rcases h2 : charListLt t.toList s.toList
    · norm_num
    · norm_num
    · norm_num
    · exact (charListLt_asymm h1 h2).elim
  rcases hord with h | h <;> subst h
  · cases hva : sortVal f a with
    | str s =>
      simp only [jsSortLe, jsCompareVal, jsSortLeD, hva, JsVal.toStr, reduceIte]
      exact (hstr s _).1
    | num x =>
      cases hvb : sortVal f b with
      | num y =>
        simp only [jsSortLe, jsCompareVal, jsSortLeD, hva, hvb, reduceIte]
        simp [decide_eq_decide, sub_nonpos]
      | str t =>
        cases hn : jsToNumber t with
        | some y =>
          simp only [jsSortLe, jsCompareVal, jsSortLeD, hva, hvb, hn, reduceIte]
          simp [decide_eq_decide, sub_nonpos]
        | none =>
          simp only [jsSortLe, jsCompareVal, jsSortLeD, hva, hvb, hn, reduceIte]
          norm_num
  · cases hva : sortVal f a with
    | str s =>
      simp only [jsSortLe, jsCompareVal, jsSortLeD, hva, JsVal.toStr, reduceIte]
      exact (hstr s _).2
    | num x =>
      cases hvb : sortVal f b with
      | num y =>
        simp only [jsSortLe, jsCompareVal, jsSortLeD, hva, hvb, reduceIte]
        simp [decide_eq_decide, sub_nonpos, sub_nonneg]
      | str t =>
        cases hn : jsToNumber t with
        | some y =>
          simp only [jsSortLe, jsCompareVal, jsSortLeD, hva, hvb, hn, reduceIte]
          simp [decide_eq_decide, sub_nonpos, sub_nonneg]
        | none =>
          simp only [jsSortLe, jsCompareVal, jsSortLeD, hva, hvb, hn, reduceIte]
          norm_num

/-- Counterexample to C7 as stated: under `sort=country` on `cexList`, the
records `cexA` (country `"5"`) and `cexB` (no country, `carbon_intensity`
`5`) tie in both comparator directions, `cexA` precedes `cexB` in the
input, yet the sort emits `cexB` before `cexA`.  The mixed string/number
resolved values make the comparator inconsistent (e.g. it orders `cexW`
after `cexB` but not after the tied `cexA`), and no stable sort preserves
ties under an inconsistent comparator — ECMAScript makes the resulting
order implementation-defined. -/
theorem sort_ties_reordered :
    jsTruthy psSortCountry.sort = true
  ∧ jsCompareVal "country" (sortOrder psSortCountry) cexA cexB = 0
  ∧ jsCompareVal "country" (sortOrder psSortCountry) cexB cexA = 0
  ∧ cexList.indexOf cexA < cexList.indexOf cexB
  ∧ (applySort psSortCountry cexList).indexOf cexB
      < (applySort psSortCountry cexList).indexOf cexA := by
  have hord : sortOrder psSortCountry = 1 := rfl
  have hcong : applySort psSortCountry cexList
      = cexList.mergeSort (jsSortLeD "country" 1) := by
    rw [applySort, if_pos (by decide), show psSortCountry.sort.getD "" = "country" from rfl,
      hord]
    exact mergeSort_congr_mem _ _ _
      (fun x _ y _ => jsSortLe_eq_D "country" 1 (Or.inl rfl) x y)
  have hsorted : cexList.mergeSort (jsSortLeD "country" 1)
      = [cexX, cexB, cexW, cexY, cexA, cexR, cexR, cexR] := by
    simp only [cexList]
    simp +decide [List.mergeSort, jsSortLeD, sortVal, Record.getField, jsOrV, JsVal.truthy,
      JsVal.toStr, ratToString, jsToNumber, expFull, expDigits, decValue, digitsVal,
      isWs, charListLt, cexX, cexW, cexY, cexA, cexB, cexR]
  refine ⟨rfl, ?_, ?_, by decide, ?_⟩
  · simp +decide [hord, jsCompareVal, sortVal, Record.getField, jsOrV, JsVal.truthy,
      JsVal.toStr, ratToString, strCmpInt, charListLt, cexA, cexB]
    try norm_num
  · simp +decide [hord, jsCompareVal, sortVal, Record.getField, jsOrV, JsVal.truthy,
      JsVal.toStr, jsToNumber, expFull, expDigits, decValue, digitsVal, isWs, cexA, cexB]
    try norm_num
  · rw [hcong, hsorted]
    decide

/-- Counterexample to C9 as stated: at a cache state with data present,
timestamp `0` and both call ages within the TTL, the guard `!lastFetched`
treats the `0` timestamp as unset, so each call does attempt a refresh:
the first call's fetch fails and falls back to the stale data, the second
call's fetch succeeds and returns the newly fetched dataset, replacing the
cache — the two calls return different data and the state is modified,
although the age never exceeded the TTL. -/
theorem fresh_zero_timestamp_refetches :
    (1000 : Int) - 0 ≤ CACHE_DURATION
  ∧ (2000 : Int) - 0 ≤ CACHE_DURATION
  ∧ getCarbonData ⟨some [], some 0⟩ 1000 (.error "down") = (.ok [], ⟨some [], some 0⟩)
  ∧ getCarbonData ⟨some [], some 0⟩ 2000 (.ok dataOne)
      = (.ok dataOne, ⟨some dataOne, some 2000⟩)
  ∧ dataOne ≠ [] :=
  ⟨by decide, by decide, by rfl, by rfl, by decide⟩

/-- Witness for C9 (amended): at a nonzero cached timestamp, two
fresh-cache calls with different would-be fetch outcomes both return the
cached dataset and leave the state unchanged. -/
theorem getCarbonData_fresh_idempotent_witness :
    getCarbonData ⟨some [], some 5⟩ 1000 (.error "down") = (.ok [], ⟨some [], some 5⟩)
  ∧ getCarbonData ⟨some [], some 5⟩ 2000 (.ok [⟨some "X", none, none, none, none⟩])
      = (.ok [], ⟨some [], some 5⟩) :=
  getCarbonData_fresh_idempotent [] 5 1000 2000 _ _ (by decide) (by decide) (by decide)

example : jsParseInt "  -42abc" = some (-42) := by rfl

example : jsParseInt "0x1A" = some 26 := by rfl

example : jsParseInt "abc" = none := by rfl

example : jsParseFloat "3.5e1" = some 35 := by decide

example : jsParseFloat "-2.5" = some (mkRat (-5) 2) := by decide

example : jsParseFloat "." = none := by rfl
